import Mathlib

/-!
Shallow embedding of `src/wall/util.py` (the wall repository's core):
the event dispatcher `EventTarget`, the identity cache `ObjectRedis`,
the set-backed mapping view `RedisContainer` and the join coordinator
`Pool`, together with theorems settling the specification claims.

Python object identities are modelled by natural-number ids allocated
from a counter; the weak-value cache is modelled by an association list
together with a set of "live" (externally referenced) ids, since a
`WeakValueDictionary` entry is visible exactly while its value object is
still referenced.  Callbacks and listeners are opaque, so a callback
invocation is recorded by a counter and a listener invocation by the
listener id appearing in the dispatch result.
-/

namespace Wall

/-! ### Association lists (model of Python `dict`) -/

/-- Lookup in an association list with string keys (Python `dict.get`). -/
def alookup {β : Type} : List (String × β) → String → Option β
  | [], _ => none
  | (k, v) :: rest, key => if k = key then some v else alookup rest key

/-- Update or insert a binding (Python `dict[key] = v`): the first binding
for `key` is replaced, or a new binding is appended. -/
def aset {β : Type} : List (String × β) → String → β → List (String × β)
  | [], key, v => [(key, v)]
  | (k, w) :: rest, key, v =>
      if k = key then (k, v) :: rest else (k, w) :: aset rest key v

/-! ### Pool (src/wall/util.py, `class Pool`)

The Python class holds `self.tasks = list(tasks)` — a list, so the same
task handle may occur several times — and a `callback`.  `finish(task)`
calls `self.tasks.remove(task)`, which deletes the first occurrence and
raises `ValueError` when the handle is absent, and then runs the callback
when the list has become empty.  The constructor runs the callback at
once when the initial list is empty.  `fired` counts callback runs. -/

structure Pool where
  tasks : List Nat
  fired : Nat
deriving Repr, DecidableEq

/-- Model of `Pool.__init__(tasks, callback)`. -/
def Pool.init (tasks : List Nat) : Pool :=
  { tasks := tasks, fired := if tasks.isEmpty then 1 else 0 }

/-- Model of `Pool.done`. -/
def Pool.done (p : Pool) : Bool := p.tasks.isEmpty

/-- Model of `Pool.finish(task)`: `ValueError` when `task` is untracked,
otherwise the first occurrence is removed and the callback runs when the
list has just become empty. -/
def Pool.finish (p : Pool) (t : Nat) : Except String Pool :=
  if t ∈ p.tasks then
    let ts := p.tasks.erase t
    .ok { tasks := ts, fired := p.fired + if ts.isEmpty then 1 else 0 }
  else .error "ValueError"

/-- State of the pool object after a `finish` call whose exception, if
any, was caught: Python raises before mutating, so on error the object is
unchanged. -/
def Pool.finishState (p : Pool) (t : Nat) : Pool :=
  match p.finish t with
  | .ok p' => p'
  | .error _ => p

/-- Run a sequence of `finish` calls; an uncaught exception aborts. -/
def Pool.runFinishes (p : Pool) : List Nat → Except String Pool
  | [] => .ok p
  | t :: ts =>
      match p.finish t with
      | .ok p' => p'.runFinishes ts
      | .error e => .error e

/-- Key invariant of the pool: the callback has run exactly once iff the
task list is empty, and has never run otherwise. -/
def Pool.inv (p : Pool) : Prop :=
  p.fired = if p.tasks.isEmpty then 1 else 0

/-! ### EventTarget (src/wall/util.py, `class EventTarget`)

`self._event_listeners` is a dict from event type to a set of listener
callables.  Listeners are modelled by `Nat` ids; a per-type set is a
duplicate-free list, and `add_event_listener` inserts only when absent,
matching `set.add`.  `remove_event_listener` raises
`ValueError('listener_unknown')` when `set.remove` raises `KeyError`,
also when the type has no entry at all (it then removes from a fresh
empty set).  `dispatch_event` sets `event.target` to the dispatching
object and calls every listener registered for `event.type`; here the
returned list of ids is the sequence of invocations. -/

abbrev Listener := Nat

abbrev ListenerMap := List (String × List Listener)

/-- Listeners currently registered for an event type: the set stored in
the dict, or the empty set when the type has no entry. -/
def listenersOf (et : ListenerMap) (ty : String) : List Listener :=
  (alookup et ty).getD []

/-- Model of `EventTarget.add_event_listener(type, listener)`. -/
def add_event_listener (et : ListenerMap) (ty : String) (l : Listener) :
    ListenerMap :=
  let ls := listenersOf et ty
  aset et ty (if l ∈ ls then ls else ls ++ [l])

/-- Model of `EventTarget.remove_event_listener(type, listener)`. -/
def remove_event_listener (et : ListenerMap) (ty : String) (l : Listener) :
    Except String ListenerMap :=
  let ls := listenersOf et ty
  if l ∈ ls then .ok (aset et ty (ls.erase l))
  else .error "listener_unknown"

/-- Model of the `Event` objects: `__init__` stores `type` and `args` and
sets `target` to `None`; `dispatch_event` later assigns `target`. -/
structure Event where
  type : String
  target : Option Nat
  args : List (String × String)
deriving Repr, DecidableEq

/-- Model of `EventTarget.dispatch_event(event)`: the event's `target`
becomes the dispatching object (identified by `selfId`) and every
listener registered for `event.type` is invoked with it. -/
def dispatch_event (et : ListenerMap) (selfId : Nat) (ev : Event) :
    Event × List Listener :=
  ({ ev with target := some selfId }, listenersOf et ev.type)

/-- One externally observable operation on an `EventTarget`. -/
inductive ETOp where
  | add (ty : String) (l : Listener)
  | remove (ty : String) (l : Listener)
deriving Repr, DecidableEq

/-- Effect of an operation on the listener registry; a failing removal
leaves the registry unchanged (the exception is raised before any
mutation). -/
def applyETOp (et : ListenerMap) : ETOp → ListenerMap
  | .add ty l => add_event_listener et ty l
  | .remove ty l =>
      match remove_event_listener et ty l with
      | .ok et' => et'
      | .error _ => et

/-- Registry reached from a fresh `EventTarget` by a call sequence. -/
def runETOps (et : ListenerMap) : List ETOp → ListenerMap
  | [] => et
  | op :: ops => runETOps (applyETOp et op) ops

/-- Every registered listener set stays duplicate-free. -/
def ListenerMap.wf (et : ListenerMap) : Prop :=
  ∀ ty, (listenersOf et ty).Nodup

/-! ### ObjectRedis (src/wall/util.py, `class ObjectRedis`)

Objects live as hashes in the store; `hgetall(key)` returns an empty
hash for a missing key, which the code treats as absent.  `oget`
consults the `WeakValueDictionary` cache when `caching` is on and tests
the result with `if not object:` — Python truthiness, so both `None`
and a falsy cached object fall through to the fetch; on a non-empty
hash it decodes a fresh object (a fresh Python identity `nextId`) and
registers it in the cache when `caching` is on.  The domain-object
payload type `δ`, the caller-supplied `decode` function and the
truthiness `truthy` of decoded data are parameters, as `decode` is in
the source.
`fetchCount` counts `hgetall` store accesses; `live` is the set of
object ids still externally referenced, which is exactly when a
weak-dict entry is visible. -/

abbrev Key := String

abbrev Hash := List (String × String)

/-- A decoded domain object: a Python identity plus the decoded data. -/
structure Obj (δ : Type) where
  oid : Nat
  data : δ
deriving Repr, DecidableEq

/-- State of one `ObjectRedis` instance. -/
structure ORState (δ : Type) where
  caching : Bool
  cache : List (Key × Obj δ)
  live : List Nat
  nextId : Nat
  fetchCount : Nat
deriving Repr, DecidableEq

/-- Record that an object id is externally referenced. -/
def insertId (live : List Nat) (oid : Nat) : List Nat :=
  if oid ∈ live then live else oid :: live

/-- Model of `WeakValueDictionary.get(key)`: an entry is visible exactly
while its object is still referenced. -/
def cacheGet {δ : Type} (s : ORState δ) (key : Key) : Option (Obj δ) :=
  match alookup s.cache key with
  | some o => if o.oid ∈ s.live then some o else none
  | none => none

/-- Python truthiness of the local variable `object` in `oget`: `None`
is falsy, and an object's truthiness is given by the caller-determined
`truthy` predicate on its decoded data (`bool(object)` may be `False`
for a Domain Object whose class defines `__bool__` or `__len__`). -/
def objTruthy {δ : Type} (truthy : δ → Bool) : Option (Obj δ) → Bool
  | some o => truthy o.data
  | none => false

/-- Model of `ObjectRedis.oget(key)`.  `store` is the hash content of
the Redis database (`hgetall`); an empty hash means the key is absent.
The guard `if not object:` is a truthiness test, so a live but falsy
cached object does not count as a hit and is re-fetched; on a fetch
whose hash is empty the previous value of `object` (the falsy cached
object, or `None`) is returned unchanged. -/
def oget {δ : Type} (store : Key → Hash) (decode : Hash → δ)
    (truthy : δ → Bool) (s : ORState δ) (key : Key) :
    Option (Obj δ) × ORState δ :=
  let object := if s.caching then cacheGet s key else none
  if objTruthy truthy object then (object, s)
  else
    let hash := store key
    let s₁ : ORState δ := { s with fetchCount := s.fetchCount + 1 }
    if hash.isEmpty then (object, s₁)
    else
      let o : Obj δ := ⟨s₁.nextId, decode hash⟩
      (some o,
        { s₁ with
          nextId := s₁.nextId + 1,
          live := insertId s₁.live o.oid,
          cache := if s₁.caching then aset s₁.cache key o else s₁.cache })

/-- Model of `ObjectRedis.omget(keys)`: `oget` applied to each key in
order, threading the instance state. -/
def omget {δ : Type} (store : Key → Hash) (decode : Hash → δ)
    (truthy : δ → Bool) (s : ORState δ) :
    List Key → List (Option (Obj δ)) × ORState δ
  | [] => ([], s)
  | k :: ks =>
      let r := oget store decode truthy s k
      let rs := omget store decode truthy r.2 ks
      (r.1 :: rs.1, rs.2)

/-! ### RedisContainer (src/wall/util.py, `class RedisContainer`)

A read-only mapping view over the named set `set_key`.  `sets` gives the
members of each named set in the Redis database (`smembers`).
`__contains__` is `sismember`; `__getitem__` raises `KeyError` when the
key is not a member and otherwise delegates to `oget`. -/

/-- Model of `RedisContainer.__contains__` (`sismember`). -/
def container_contains (sets : String → List Key) (set_key : String)
    (key : Key) : Bool :=
  key ∈ sets set_key

/-- Model of `RedisContainer.__getitem__`. -/
def container_getitem {δ : Type} (store : Key → Hash) (decode : Hash → δ)
    (truthy : δ → Bool) (sets : String → List Key) (set_key : String)
    (s : ORState δ) (key : Key) :
    Except String (Option (Obj δ)) × ORState δ :=
  if container_contains sets set_key key then
    let r := oget store decode truthy s key
    (.ok r.1, r.2)
  else (.error "KeyError", s)

/-- Model of `RedisContainer.__len__` (`scard`). -/
def container_len (sets : String → List Key) (set_key : String) : Nat :=
  (sets set_key).length

/-! ### Concrete demo inputs used by witnesses -/

/-- Demo store holding a single hash, mirroring the repository's own
test fixture (a ship object). -/
def demoStore : Key → Hash := fun k =>
  if k = "ship:0" then [("id", "ship:0"), ("type", "starfury")] else []

/-- Demo decode function: domain data is the number of hash fields. -/
def demoDecode : Hash → Nat := fun h => h.length

/-- Fresh `ObjectRedis` state with the given caching switch. -/
def demoState (c : Bool) : ORState Nat := ⟨c, [], [], 0, 0⟩

/-- Demo named sets: one set of two ship keys, one of which has no
backing hash in `demoStore`. -/
def demoSets : String → List Key := fun sk =>
  if sk = "ships" then ["ship:0", "ghost"] else []

/-- Demo truthiness on decoded data: zero is falsy, like a Python object
whose `__len__` (or `__bool__`) reports it empty; the repository's own
`Ship` instances decode to truthy values. -/
def demoTruthy : Nat → Bool := fun n => n != 0

/-- Demo decode function producing a falsy Domain Object (for example a
decoded container that happens to be empty). -/
def demoFalsyDecode : Hash → Nat := fun _ => 0

/-- Soundness of an `ObjectRedis` state with respect to its store: every
cached object id is below the fresh-id counter, and no key absent from
the store has a live cache entry.  The fresh state satisfies this and
`oget` preserves it. -/
def cacheSound {δ : Type} (store : Key → Hash) (s : ORState δ) : Prop :=
  (∀ k o, alookup s.cache k = some o → o.oid < s.nextId) ∧
  (∀ k, (store k).isEmpty = true → cacheGet s k = none)

theorem alookup_aset_self {β : Type} (m : List (String × β)) (key : String)
    (v : β) : alookup (aset m key v) key = some v := by
  induction m with
  | nil => simp [aset, alookup]
  | cons p rest ih =>
      obtain ⟨k, w⟩ := p
      by_cases h : k = key
      · simp [aset, alookup, h]
      · simp [aset, alookup, h, ih]

theorem alookup_aset_ne {β : Type} (m : List (String × β)) (key k : String)
    (v : β) (h : k ≠ key) : alookup (aset m key v) k = alookup m k := by
  have hks : ¬key = k := fun hh => h hh.symm
  induction m with
  | nil => simp [aset, alookup, hks]
  | cons p rest ih =>
      obtain ⟨k', w⟩ := p
      by_cases h' : k' = key
      · subst h'
        simp [aset, alookup, hks]
      · simp [aset, alookup, h', ih]

theorem aset_aset_self {β : Type} (m : List (String × β)) (key : String)
    (v w : β) : aset (aset m key v) key w = aset m key w := by
  induction m with
  | nil => simp [aset]
  | cons p rest ih =>
      obtain ⟨k, u⟩ := p
      by_cases h : k = key <;> simp [aset, h, ih]

theorem Pool.init_inv (tasks : List Nat) : (Pool.init tasks).inv := rfl

theorem Pool.finish_inv {p p' : Pool} {t : Nat} (hp : p.inv)
    (h : p.finish t = .ok p') : p'.inv := by
  unfold Pool.finish at h
  by_cases hm : t ∈ p.tasks
  · simp only [hm, if_true] at h
    have hne : p.tasks.isEmpty = false := by
      cases hts : p.tasks with
      | nil => rw [hts] at hm; cases hm
      | cons a l => simp [List.isEmpty]
    have hf : p.fired = 0 := by rw [Pool.inv, hne] at hp; simpa using hp
    cases h
    simp [Pool.inv, hf]
  · simp [hm] at h

theorem Pool.runFinishes_inv {p p' : Pool} {ops : List Nat} (hp : p.inv)
    (h : p.runFinishes ops = .ok p') : p'.inv := by
  induction ops generalizing p with
  | nil =>
      unfold Pool.runFinishes at h
      cases h
      exact hp
  | cons t ts ih =>
      unfold Pool.runFinishes at h
      cases hf : p.finish t with
      | ok q =>
          rw [hf] at h
          exact ih (Pool.finish_inv hp hf) h
      | error e => rw [hf] at h; cases h

theorem listenersOf_aset_self (et : ListenerMap) (ty : String)
    (v : List Listener) : listenersOf (aset et ty v) ty = v := by
  simp [listenersOf, alookup_aset_self]

theorem listenersOf_aset_ne (et : ListenerMap) (ty ty' : String)
    (v : List Listener) (h : ty' ≠ ty) :
    listenersOf (aset et ty v) ty' = listenersOf et ty' := by
  simp [listenersOf, alookup_aset_ne _ _ _ _ h]

theorem wf_empty : ListenerMap.wf [] := by
  intro ty
  simp [listenersOf, alookup]

theorem wf_add {et : ListenerMap} (hwf : et.wf) (ty : String)
    (l : Listener) : (add_event_listener et ty l).wf := by
  intro ty'
  unfold add_event_listener
  by_cases h : ty' = ty
  · subst h
    rw [listenersOf_aset_self]
    by_cases hl : l ∈ listenersOf et ty'
    · simpa [hl] using hwf ty'
    · simp only [hl, if_false]
      simp [List.nodup_append, hwf ty', hl]
  · rw [listenersOf_aset_ne _ _ _ _ h]
    exact hwf ty'

theorem wf_applyETOp {et : ListenerMap} (hwf : et.wf) (op : ETOp) :
    (applyETOp et op).wf := by
  cases op with
  | add ty l => exact wf_add hwf ty l
  | remove ty l =>
      unfold applyETOp remove_event_listener
      by_cases hl : l ∈ listenersOf et ty
      · simp only [hl, if_true]
        intro ty'
        by_cases h : ty' = ty
        · subst h
          rw [listenersOf_aset_self]
          exact (hwf ty').erase l
        · rw [listenersOf_aset_ne _ _ _ _ h]
          exact hwf ty'
      · simpa [hl] using hwf

theorem wf_runETOps (ops : List ETOp) : (runETOps [] ops).wf := by
  suffices h : ∀ et, ListenerMap.wf et → (runETOps et ops).wf from
    h [] wf_empty
  induction ops with
  | nil => intro et h; exact h
  | cons op ops ih =>
      intro et h
      exact ih _ (wf_applyETOp h op)

/-! ### Helper lemmas for `Pool` runs on replicated task handles -/

theorem Pool.replicate_isEmpty_false (m : Nat) (t : Nat) :
    (List.replicate (m + 1) t).isEmpty = false := by
  rw [List.replicate_succ]
  rfl

theorem Pool.runFinishes_cons_ok {p p' : Pool} {t : Nat} {ts : List Nat}
    (h : p.finish t = .ok p') :
    p.runFinishes (t :: ts) = p'.runFinishes ts := by
  rw [Pool.runFinishes, h]

theorem Pool.runFinishes_replicate_lt (k : Nat) :
    ∀ m f t, k < m →
      Pool.runFinishes ⟨List.replicate m t, f⟩ (List.replicate k t)
        = .ok ⟨List.replicate (m - k) t, f⟩ := by
  induction k with
  | zero => intro m f t _; simp [Pool.runFinishes]
  | succ k ih =>
      intro m f t h
      cases m with
      | zero => omega
      | succ m' =>
          have hk' : k < m' := by omega
          have hm' : m' ≠ 0 := by omega
          obtain ⟨m'', rfl⟩ := Nat.exists_eq_succ_of_ne_zero hm'
          rw [List.replicate_succ t k, List.replicate_succ t (m'' + 1)]
          have hstep : Pool.finish ⟨t :: List.replicate (m'' + 1) t, f⟩ t
              = .ok ⟨List.replicate (m'' + 1) t, f⟩ := by
            simp [Pool.finish, Pool.replicate_isEmpty_false]
          rw [Pool.runFinishes_cons_ok hstep]
          have harith : m'' + 1 + 1 - (k + 1) = m'' + 1 - k := by omega
          rw [show Nat.succ m'' = m'' + 1 from rfl, harith]
          exact ih (m'' + 1) f t hk'

theorem Pool.runFinishes_replicate_all (m : Nat) :
    ∀ f t, Pool.runFinishes ⟨List.replicate (m + 1) t, f⟩
        (List.replicate (m + 1) t) = .ok ⟨[], f + 1⟩ := by
  induction m with
  | zero =>
      intro f t
      simp [Pool.runFinishes, Pool.finish, List.replicate_succ]
  | succ m' ih =>
      intro f t
      rw [List.replicate_succ t (m' + 1)]
      have hstep : Pool.finish ⟨t :: List.replicate (m' + 1) t, f⟩ t
          = .ok ⟨List.replicate (m' + 1) t, f⟩ := by
        simp [Pool.finish, Pool.replicate_isEmpty_false]
      rw [Pool.runFinishes_cons_ok hstep]
      exact ih f t

/-! ### Claim theorems for `Pool` -/

/-- Claim C2: for every reachable state of a `Pool`, the completion
callback has run exactly once when the tracked task collection is empty
and has never run while it is non-empty — so it fires exactly once per
instance, exactly at the transition to empty, regardless of the order of
`finish` calls; and a pool constructed with an empty collection has
already run the callback during construction, while a pool constructed
with a non-empty collection has not. -/
theorem pool_callback_exactly_once (init ops : List Nat) (p : Pool)
    (h : (Pool.init init).runFinishes ops = .ok p) :
    p.fired = (if p.tasks.isEmpty then 1 else 0) ∧
    (Pool.init []).fired = 1 ∧ (Pool.init []).tasks = [] ∧
    (init.isEmpty = false → (Pool.init init).fired = 0) := by
  refine ⟨Pool.runFinishes_inv (Pool.init_inv init) h, rfl, rfl, ?_⟩
  intro hne
  simp [Pool.init, hne]

/-- Witness for `pool_callback_exactly_once`: a pool over tasks `[1, 2]`
finished in the order `2, 1` reaches the empty state having fired once. -/
theorem pool_callback_exactly_once_witness :
    (Pool.mk [] 1).fired = (if (Pool.mk [] 1).tasks.isEmpty then 1 else 0) ∧
    (Pool.init []).fired = 1 ∧ (Pool.init []).tasks = [] ∧
    (([1, 2] : List Nat).isEmpty = false → (Pool.init [1, 2]).fired = 0) :=
  pool_callback_exactly_once [1, 2] [2, 1] (Pool.mk [] 1) (by rfl)

/-- Claim C7: `finish(task)` raises `ValueError` when `task` is not
currently tracked, leaving the pool object unchanged (in particular not
firing the callback); and in any reachable state whose task collection
has emptied (so the callback has fired), every further `finish` call
raises `ValueError`. -/
theorem pool_finish_untracked (p : Pool) (t : Nat) (init ops : List Nat)
    (q : Pool) (u : Nat) (h : t ∉ p.tasks)
    (_hq : (Pool.init init).runFinishes ops = .ok q)
    (hdone : q.done = true) :
    p.finish t = .error "ValueError" ∧
    p.finishState t = p ∧
    (p.finishState t).fired = p.fired ∧
    q.finish u = .error "ValueError" := by
  have herr : p.finish t = .error "ValueError" := by
    simp [Pool.finish, h]
  have hqe : q.tasks = [] := by
    rw [Pool.done, List.isEmpty_iff] at hdone
    exact hdone
  have herr' : q.finish u = .error "ValueError" := by
    simp [Pool.finish, hqe]
  refine ⟨herr, ?_, ?_, herr'⟩
  · rw [Pool.finishState, herr]
  · rw [Pool.finishState, herr]

/-- Witness for `pool_finish_untracked`: finishing the untracked task
`5` on a pool tracking `[1]` fails, and after the single task of pool
`Pool.init [3]` is finished, finishing `3` again fails. -/
theorem pool_finish_untracked_witness :
    (Pool.mk [1] 0).finish 5 = .error "ValueError" ∧
    (Pool.mk [1] 0).finishState 5 = Pool.mk [1] 0 ∧
    ((Pool.mk [1] 0).finishState 5).fired = (Pool.mk [1] 0).fired ∧
    (Pool.mk [] 1).finish 3 = .error "ValueError" :=
  pool_finish_untracked (Pool.mk [1] 0) 5 [3] [3] (Pool.mk [] 1) 3
    (by decide) (by rfl) (by rfl)

/-- Claim C10: task handles are tracked with multiset (list) semantics.
With an initial collection of `n` copies of handle `t`, the first
`k < n` finish calls for `t` all succeed without firing the callback,
leaving `n - k` copies tracked, and the `n`-th finish call empties the
collection and fires the callback exactly once; moreover each successful
`finish` removes exactly one occurrence of its handle. -/
theorem pool_multiset_semantics (n k t : Nat) (p : Pool) (u : Nat)
    (hn : 0 < n) (hk : k < n) (hu : u ∈ p.tasks) :
    (Pool.init (List.replicate n t)).runFinishes (List.replicate k t)
      = .ok ⟨List.replicate (n - k) t, 0⟩ ∧
    (Pool.init (List.replicate n t)).runFinishes (List.replicate n t)
      = .ok ⟨[], 1⟩ ∧
    ∃ p', p.finish u = .ok p' ∧
      p'.tasks.count u + 1 = p.tasks.count u ∧
      p'.tasks.length + 1 = p.tasks.length := by
  obtain ⟨n', rfl⟩ := Nat.exists_eq_succ_of_ne_zero (Nat.pos_iff_ne_zero.mp hn)
  have hinit : Pool.init (List.replicate (n' + 1) t)
      = ⟨List.replicate (n' + 1) t, 0⟩ := by
    simp [Pool.init, Pool.replicate_isEmpty_false]
  refine ⟨?_, ?_, ?_⟩
  · rw [hinit]
    exact Pool.runFinishes_replicate_lt k (n' + 1) 0 t hk
  · rw [hinit]
    exact Pool.runFinishes_replicate_all n' 0 t
  · refine ⟨⟨p.tasks.erase u,
      p.fired + if (p.tasks.erase u).isEmpty then 1 else 0⟩, ?_, ?_, ?_⟩
    · simp [Pool.finish, hu]
    · have hc : 0 < p.tasks.count u := List.count_pos_iff.mpr hu
      have := List.count_erase_self u p.tasks
      simp only [this]
      omega
    · have hl : 0 < p.tasks.length := List.length_pos.mpr
        (List.ne_nil_of_mem hu)
      have := List.length_erase_of_mem hu
      simp only [this]
      omega

/-- Witness for `pool_multiset_semantics`: with two copies of handle `7`,
one finish leaves one copy and no firing, the second finish fires. -/
theorem pool_multiset_semantics_witness :
    (Pool.init (List.replicate 2 7)).runFinishes (List.replicate 1 7)
      = .ok ⟨List.replicate (2 - 1) 7, 0⟩ ∧
    (Pool.init (List.replicate 2 7)).runFinishes (List.replicate 2 7)
      = .ok ⟨[], 1⟩ ∧
    ∃ p', (Pool.mk [7, 7] 0).finish 7 = .ok p' ∧
      p'.tasks.count 7 + 1 = (Pool.mk [7, 7] 0).tasks.count 7 ∧
      p'.tasks.length + 1 = (Pool.mk [7, 7] 0).tasks.length :=
  pool_multiset_semantics 2 1 7 (Pool.mk [7, 7] 0) 7
    (by decide) (by decide) (by decide)

/-! ### Claim theorems for `EventTarget` -/

/-- Claim C6: `dispatch_event(event)` sets the event's target (the
spec's `source`) to the dispatching object and synchronously invokes
exactly the listeners currently registered for `event.type`, each once
(the registered sets of a real `EventTarget` are duplicate-free); when
no listener is registered for the type, nothing is invoked and no error
is raised (the function is total and returns the unchanged registry's
empty listener set). -/
theorem dispatch_event_spec (ops : List ETOp) (selfId : Nat) (ev : Event) :
    (dispatch_event (runETOps [] ops) selfId ev).1.target = some selfId ∧
    (dispatch_event (runETOps [] ops) selfId ev).1.type = ev.type ∧
    (dispatch_event (runETOps [] ops) selfId ev).1.args = ev.args ∧
    (dispatch_event (runETOps [] ops) selfId ev).2
      = listenersOf (runETOps [] ops) ev.type ∧
    ((dispatch_event (runETOps [] ops) selfId ev).2).Nodup ∧
    (listenersOf (runETOps [] ops) ev.type = [] →
      (dispatch_event (runETOps [] ops) selfId ev).2 = []) :=
  ⟨rfl, rfl, rfl, rfl, wf_runETOps ops ev.type, fun h => h⟩

/-- Witness for `dispatch_event_spec`: after registering listener `1`
for type `fired`, dispatching a `fired` event from object `0` marks the
event with target `0` and invokes exactly listener `1` once. -/
theorem dispatch_event_spec_witness :
    (dispatch_event (runETOps [] [ETOp.add "fired" 1]) 0
      (Event.mk "fired" none [])).1.target = some 0 ∧
    (dispatch_event (runETOps [] [ETOp.add "fired" 1]) 0
      (Event.mk "fired" none [])).1.type = (Event.mk "fired" none []).type ∧
    (dispatch_event (runETOps [] [ETOp.add "fired" 1]) 0
      (Event.mk "fired" none [])).1.args = (Event.mk "fired" none []).args ∧
    (dispatch_event (runETOps [] [ETOp.add "fired" 1]) 0
      (Event.mk "fired" none [])).2
      = listenersOf (runETOps [] [ETOp.add "fired" 1]) "fired" ∧
    ((dispatch_event (runETOps [] [ETOp.add "fired" 1]) 0
      (Event.mk "fired" none [])).2).Nodup ∧
    (listenersOf (runETOps [] [ETOp.add "fired" 1]) "fired" = [] →
      (dispatch_event (runETOps [] [ETOp.add "fired" 1]) 0
        (Event.mk "fired" none [])).2 = []) :=
  dispatch_event_spec [ETOp.add "fired" 1] 0 (Event.mk "fired" none [])

/-- Claim C8: `add_event_listener` is idempotent — registering the same
listener twice for the same type leaves the registry exactly as after
registering it once, and a subsequent dispatch of that type invokes the
listener exactly once (given the duplicate-freeness every real registry
has). -/
theorem add_event_listener_idem (et : ListenerMap) (ty : String)
    (l : Listener) (selfId : Nat) (ev : Event)
    (hnd : (listenersOf et ty).Nodup) (hty : ev.type = ty) :
    add_event_listener (add_event_listener et ty l) ty l
      = add_event_listener et ty l ∧
    (dispatch_event (add_event_listener et ty l) selfId ev).2.count l
      = 1 := by
  have hlv : l ∈ (if l ∈ listenersOf et ty then listenersOf et ty
      else listenersOf et ty ++ [l]) := by
    by_cases h : l ∈ listenersOf et ty <;> simp [h]
  constructor
  · simp only [add_event_listener]
    rw [listenersOf_aset_self, if_pos hlv, aset_aset_self]
  · show (listenersOf (add_event_listener et ty l) ev.type).count l = 1
    rw [hty]
    simp only [add_event_listener]
    rw [listenersOf_aset_self]
    by_cases h : l ∈ listenersOf et ty
    · rw [if_pos h]
      exact List.count_eq_one_of_mem hnd h
    · rw [if_neg h, List.count_append,
        List.count_eq_zero_of_not_mem h]
      simp

/-- Witness for `add_event_listener_idem`: registering listener `5` for
type `fired` twice on an empty registry equals registering it once, and
dispatch then invokes `5` exactly once. -/
theorem add_event_listener_idem_witness :
    add_event_listener (add_event_listener [] "fired" 5) "fired" 5
      = add_event_listener [] "fired" 5 ∧
    (dispatch_event (add_event_listener [] "fired" 5) 0
      (Event.mk "fired" none [])).2.count 5 = 1 :=
  add_event_listener_idem [] "fired" 5 0 (Event.mk "fired" none [])
    (by decide) (by rfl)

/-- Claim C9: `remove_event_listener(type, listener)` fails with
`ValueError('listener_unknown')` exactly when the listener is not
currently registered for the type (in particular when the type has no
entry at all); after a successful removal the listener is no longer
registered and a subsequent dispatch of that type no longer invokes it
(given the duplicate-freeness every real registry has). -/
theorem remove_event_listener_spec (et : ListenerMap) (ty : String)
    (l : Listener) (selfId : Nat) (ev : Event)
    (hnd : (listenersOf et ty).Nodup) (hty : ev.type = ty) :
    (remove_event_listener et ty l = .error "listener_unknown"
      ↔ l ∉ listenersOf et ty) ∧
    (∀ et', remove_event_listener et ty l = .ok et' →
      l ∉ listenersOf et' ty ∧ l ∉ (dispatch_event et' selfId ev).2) := by
  constructor
  · by_cases hl : l ∈ listenersOf et ty
    · simp [remove_event_listener, hl]
    · simp [remove_event_listener, hl]
  · intro et' hok
    by_cases hl : l ∈ listenersOf et ty
    · simp only [remove_event_listener, if_pos hl, Except.ok.injEq] at hok
      subst hok
      have hmem : l ∉ listenersOf (aset et ty ((listenersOf et ty).erase l))
          ty := by
        rw [listenersOf_aset_self]
        exact hnd.not_mem_erase
      refine ⟨hmem, ?_⟩
      show l ∉ listenersOf (aset et ty ((listenersOf et ty).erase l)) ev.type
      rw [hty]
      exact hmem
    · simp [remove_event_listener, hl] at hok

/-- Witness for `remove_event_listener_spec`: removing listener `5`,
registered for type `fired`, succeeds and subsequent `fired` dispatches
no longer invoke it; the not-found failure arises exactly for
unregistered listeners. -/
theorem remove_event_listener_spec_witness :
    (remove_event_listener [("fired", [5])] "fired" 5
      = .error "listener_unknown"
      ↔ 5 ∉ listenersOf [("fired", [5])] "fired") ∧
    (∀ et', remove_event_listener [("fired", [5])] "fired" 5 = .ok et' →
      5 ∉ listenersOf et' "fired" ∧
      5 ∉ (dispatch_event et' 0 (Event.mk "fired" none [])).2) :=
  remove_event_listener_spec [("fired", [5])] "fired" 5 0
    (Event.mk "fired" none []) (by decide) (by rfl)

/-! ### Helper lemmas for `ObjectRedis` -/

theorem mem_insertId_self (live : List Nat) (oid : Nat) :
    oid ∈ insertId live oid := by
  unfold insertId
  by_cases h : oid ∈ live <;> simp [h]

theorem mem_insertId (x : Nat) (live : List Nat) (oid : Nat) :
    x ∈ insertId live oid ↔ x = oid ∨ x ∈ live := by
  unfold insertId
  by_cases h : oid ∈ live
  · simp only [h, if_true]
    constructor
    · exact fun hx => Or.inr hx
    · rintro (rfl | hx)
      · exact h
      · exact hx
  · simp [h]

theorem alookup_aset_cases {β : Type} {m : List (String × β)}
    {key k : String} {v w : β} (h : alookup (aset m key v) k = some w) :
    w = v ∨ alookup m k = some w := by
  by_cases hk : k = key
  · subst hk
    rw [alookup_aset_self] at h
    exact Or.inl (Option.some.injEq _ _ ▸ h.symm)
  · rw [alookup_aset_ne _ _ _ _ hk] at h
    exact Or.inr h

theorem cacheGet_fetchCount {δ : Type} (s : ORState δ) (key : Key)
    (n : Nat) : cacheGet { s with fetchCount := n } key = cacheGet s key :=
  rfl

theorem oget_hit {δ : Type} (store : Key → Hash) (decode : Hash → δ)
    (truthy : δ → Bool) (s : ORState δ) (key : Key) (o : Obj δ)
    (hc : s.caching = true) (hcg : cacheGet s key = some o)
    (ht : truthy o.data = true) :
    oget store decode truthy s key = (some o, s) := by
  simp [oget, hc, hcg, objTruthy, ht]

theorem oget_miss_present {δ : Type} (store : Key → Hash)
    (decode : Hash → δ) (truthy : δ → Bool) (s : ORState δ) (key : Key)
    (hc : s.caching = true) (hcg : cacheGet s key = none)
    (hne : (store key).isEmpty = false) :
    oget store decode truthy s key
      = (some ⟨s.nextId, decode (store key)⟩,
        { s with fetchCount := s.fetchCount + 1, nextId := s.nextId + 1,
                 live := insertId s.live s.nextId,
                 cache := aset s.cache key ⟨s.nextId, decode (store key)⟩ }) := by
  simp [oget, hc, hcg, objTruthy, hne]

theorem oget_absent {δ : Type} (store : Key → Hash) (decode : Hash → δ)
    (truthy : δ → Bool) (s : ORState δ) (key : Key)
    (hobj : s.caching = true → cacheGet s key = none)
    (hie : (store key).isEmpty = true) :
    oget store decode truthy s key
      = (none, { s with fetchCount := s.fetchCount + 1 }) := by
  by_cases hc : s.caching = true
  · simp [oget, hc, hobj hc, objTruthy, hie]
  · have hc' : s.caching = false := by
      revert hc
      cases s.caching <;> simp
    simp [oget, hc', objTruthy, hie]

theorem oget_nocache {δ : Type} (store : Key → Hash) (decode : Hash → δ)
    (truthy : δ → Bool) (s : ORState δ) (key : Key) (hc : s.caching = false)
    (hne : (store key).isEmpty = false) :
    oget store decode truthy s key
      = (some ⟨s.nextId, decode (store key)⟩,
        { s with fetchCount := s.fetchCount + 1, nextId := s.nextId + 1,
                 live := insertId s.live s.nextId }) := by
  simp [oget, hc, objTruthy, hne]

theorem oget_state_cases {δ : Type} (store : Key → Hash)
    (decode : Hash → δ) (truthy : δ → Bool) (s : ORState δ) (key : Key) :
    (oget store decode truthy s key).2 = s ∨
    (oget store decode truthy s key).2
      = { s with fetchCount := s.fetchCount + 1 } ∨
    ((store key).isEmpty = false ∧
      (oget store decode truthy s key).2
        = { s with fetchCount := s.fetchCount + 1, nextId := s.nextId + 1,
                   live := insertId s.live s.nextId,
                   cache := if s.caching then
                       aset s.cache key ⟨s.nextId, decode (store key)⟩
                     else s.cache }) := by
  by_cases ht : objTruthy truthy
      (if s.caching then cacheGet s key else none) = true
  · left
    simp [oget, ht]
  · have ht' : objTruthy truthy
        (if s.caching then cacheGet s key else none) = false :=
      Bool.eq_false_iff.mpr ht
    by_cases hie : (store key).isEmpty = true
    · right
      left
      simp [oget, ht', hie]
    · right
      right
      refine ⟨Bool.eq_false_iff.mpr hie, ?_⟩
      simp [oget, ht', Bool.eq_false_iff.mpr hie]

/-- Claim C1, failing run: the class docstring guarantees that getting
the same key multiple times yields the identical object while it stays
referenced, but the guard `if not object:` tests truthiness, not
`is None`.  With caching enabled and key `ship:0` present, a decode
producing a falsy Domain Object makes the first `oget` fetch and cache
the object `⟨0, 0⟩`; the second `oget`, although `⟨0, 0⟩` is still
referenced (its id `0` is live) and cached, performs another store
access (`fetchCount` rises from 1 to 2) and returns the distinct fresh
object `⟨1, 0⟩` — contradicting the claim and the code's own
documentation. -/
theorem oget_falsy_cached_refetch :
    oget demoStore demoFalsyDecode demoTruthy (demoState true) "ship:0"
      = (some ⟨0, 0⟩, ⟨true, [("ship:0", ⟨0, 0⟩)], [0], 1, 1⟩) ∧
    oget demoStore demoFalsyDecode demoTruthy
        ⟨true, [("ship:0", ⟨0, 0⟩)], [0], 1, 1⟩ "ship:0"
      = (some ⟨1, 0⟩, ⟨true, [("ship:0", ⟨1, 0⟩)], [1, 0], 2, 2⟩) ∧
    cacheGet (⟨true, [("ship:0", ⟨0, 0⟩)], [0], 1, 1⟩ : ORState Nat)
        "ship:0" = some ⟨0, 0⟩ ∧
    (0 : Nat) ∈ (⟨true, [("ship:0", ⟨0, 0⟩)], [0], 1, 1⟩
      : ORState Nat).live ∧
    (⟨0, 0⟩ : Obj Nat).oid ≠ (⟨1, 0⟩ : Obj Nat).oid := by
  refine ⟨?_, ?_, ?_, ?_, ?_⟩ <;> decide

/-- Claim C5: with caching disabled, every `oget` performs a fresh store
fetch and decode, never registers anything in the cache and never
consults it (the result does not depend on the cache contents), and two
consecutive `oget` calls for the same present key return objects with
distinct Python identities even though both carry the same decoded
data. -/
theorem oget_caching_disabled {δ : Type} (store : Key → Hash)
    (decode : Hash → δ) (truthy : δ → Bool) (s : ORState δ) (key : Key)
    (hc : s.caching = false) (hne : (store key).isEmpty = false) :
    (oget store decode truthy s key).1
      = some ⟨s.nextId, decode (store key)⟩ ∧
    (oget store decode truthy
        ((oget store decode truthy s key).2) key).1
      = some ⟨s.nextId + 1, decode (store key)⟩ ∧
    (∀ o₁ o₂, (oget store decode truthy s key).1 = some o₁ →
      (oget store decode truthy
        ((oget store decode truthy s key).2) key).1 = some o₂ →
      o₁.oid ≠ o₂.oid) ∧
    ((oget store decode truthy s key).2).cache = s.cache ∧
    ((oget store decode truthy
        ((oget store decode truthy s key).2) key).2).cache = s.cache ∧
    ((oget store decode truthy s key).2).fetchCount = s.fetchCount + 1 ∧
    ((oget store decode truthy
        ((oget store decode truthy s key).2) key).2).fetchCount
      = s.fetchCount + 2 ∧
    (∀ c', (oget store decode truthy { s with cache := c' } key).1
      = (oget store decode truthy s key).1) := by
  have heq1 := oget_nocache store decode truthy s key hc hne
  have heq2 : oget store decode truthy
        ((oget store decode truthy s key).2) key
      = (some ⟨s.nextId + 1, decode (store key)⟩,
        { s with fetchCount := s.fetchCount + 2, nextId := s.nextId + 2,
                 live := insertId (insertId s.live s.nextId)
                   (s.nextId + 1) }) := by
    rw [heq1]
    exact oget_nocache store decode truthy _ key hc hne
  refine ⟨?_, ?_, ?_, ?_, ?_, ?_, ?_, ?_⟩
  · rw [heq1]
  · rw [heq2]
  · intro o₁ o₂ h₁ h₂
    rw [heq1] at h₁
    rw [heq2] at h₂
    simp only [Option.some.injEq] at h₁ h₂
    rw [← h₁, ← h₂]
    simp
  · rw [heq1]
  · rw [heq2]
  · rw [heq1]
  · rw [heq2]
  · intro c'
    rw [heq1]
    rw [oget_nocache store decode truthy { s with cache := c' } key hc hne]

/-- Witness for `oget_caching_disabled` on a one-key demo store. -/
theorem oget_caching_disabled_witness :
    (oget demoStore demoDecode demoTruthy (demoState false) "ship:0").1
      = some ⟨(demoState false).nextId, demoDecode (demoStore "ship:0")⟩ ∧
    (oget demoStore demoDecode demoTruthy
        ((oget demoStore demoDecode demoTruthy
          (demoState false) "ship:0").2) "ship:0").1
      = some ⟨(demoState false).nextId + 1,
          demoDecode (demoStore "ship:0")⟩ :=
  ⟨(oget_caching_disabled demoStore demoDecode demoTruthy
      (demoState false) "ship:0" rfl (by rfl)).1,
    (oget_caching_disabled demoStore demoDecode demoTruthy
      (demoState false) "ship:0" rfl (by rfl)).2.1⟩

/-! ### Cache soundness invariant and `omget` lemmas -/

theorem cacheGet_none_preserved {δ : Type} (s S : ORState δ) (k : Key)
    (hcache : alookup S.cache k = alookup s.cache k)
    (hlive : S.live = insertId s.live s.nextId)
    (hids : ∀ o, alookup s.cache k = some o → o.oid < s.nextId)
    (hnone : cacheGet s k = none) : cacheGet S k = none := by
  unfold cacheGet at hnone ⊢
  rw [hcache, hlive]
  cases halk : alookup s.cache k with
  | none => rfl
  | some o =>
      rw [halk] at hnone
      have hnone' : (if o.oid ∈ s.live then some o else none) = none := hnone
      have hlt : o.oid < s.nextId := hids o halk
      have hnl : o.oid ∉ s.live := by
        by_cases hm : o.oid ∈ s.live
        · simp [hm] at hnone'
        · exact hm
      show (if o.oid ∈ insertId s.live s.nextId then some o else none) = none
      rw [if_neg]
      intro hmem
      rcases (mem_insertId _ _ _).mp hmem with h | h
      · omega
      · exact hnl h

theorem oget_cacheSound {δ : Type} (store : Key → Hash)
    (decode : Hash → δ) (truthy : δ → Bool) (s : ORState δ) (key : Key)
    (hcs : cacheSound store s) :
    cacheSound store (oget store decode truthy s key).2 := by
  rcases oget_state_cases store decode truthy s key with h | h | ⟨hne, h⟩
  · rw [h]
    exact hcs
  · rw [h]
    exact hcs
  · rw [h]
    by_cases hc : s.caching = true
    · simp only [hc, if_true]
      constructor
      · intro k o h'
        rcases alookup_aset_cases h' with rfl | h''
        · simp
        · have := hcs.1 k o h''
          simp
          omega
      · intro k hk
        have hkk : k ≠ key := by
          intro he
          rw [he, hne] at hk
          cases hk
        exact cacheGet_none_preserved s _ k
          (alookup_aset_ne _ _ _ _ hkk) rfl
          (fun o ho => hcs.1 k o ho) (hcs.2 k hk)
    · have hc' : s.caching = false := by
        revert hc
        cases s.caching <;> simp
      simp only [hc', if_false]
      constructor
      · intro k o h'
        have := hcs.1 k o h'
        simp
        omega
      · intro k hk
        exact cacheGet_none_preserved s _ k rfl rfl
          (fun o ho => hcs.1 k o ho) (hcs.2 k hk)

theorem omget_length {δ : Type} (store : Key → Hash) (decode : Hash → δ)
    (truthy : δ → Bool) :
    ∀ (keys : List Key) (s : ORState δ),
      ((omget store decode truthy s keys).1).length = keys.length := by
  intro keys
  induction keys with
  | nil => intro s; rfl
  | cons k ks ih => intro s; simp [omget, ih]

theorem omget_cacheSound {δ : Type} (store : Key → Hash)
    (decode : Hash → δ) (truthy : δ → Bool) :
    ∀ (keys : List Key) (s : ORState δ), cacheSound store s →
      cacheSound store (omget store decode truthy s keys).2 := by
  intro keys
  induction keys with
  | nil => intro s h; exact h
  | cons k ks ih =>
      intro s h
      exact ih _ (oget_cacheSound store decode truthy s k h)

theorem omget_get? {δ : Type} (store : Key → Hash) (decode : Hash → δ)
    (truthy : δ → Bool) :
    ∀ (keys : List Key) (i : Nat) (s : ORState δ) (k : Key),
      keys.get? i = some k →
      ((omget store decode truthy s keys).1).get? i
        = some ((oget store decode truthy
            ((omget store decode truthy s (keys.take i)).2) k).1) := by
  intro keys
  induction keys with
  | nil =>
      intro i s k h
      rw [List.get?_nil] at h
      cases h
  | cons k₀ ks ih =>
      intro i s k h
      cases i with
      | zero =>
          rw [List.get?_cons_zero] at h
          have hk : k₀ = k := by simpa using h
          subst hk
          rfl
      | succ i =>
          rw [List.get?_cons_succ] at h
          rw [List.take_succ_cons]
          show ((omget store decode truthy
              (oget store decode truthy s k₀).2 ks).1).get? i = _
          rw [ih i (oget store decode truthy s k₀).2 k h]
          rfl

/-- Claim C4: `omget(keys)` returns a sequence of the same length and
order as `keys`, whose `i`-th element is exactly the result of `oget`
applied to the `i`-th key (in the state threaded through the earlier
keys), and a key whose hash is absent from the store yields `none`
(absent) in its slot, provided the cache state is sound for the store
(as every state grown from a fresh instance is). -/
theorem omget_pointwise {δ : Type} (store : Key → Hash)
    (decode : Hash → δ) (truthy : δ → Bool) (s : ORState δ)
    (keys : List Key) (i : Nat) (k : Key) (hcs : cacheSound store s)
    (hik : keys.get? i = some k) :
    ((omget store decode truthy s keys).1).length = keys.length ∧
    ((omget store decode truthy s keys).1).get? i
      = some ((oget store decode truthy
          ((omget store decode truthy s (keys.take i)).2) k).1) ∧
    ((store k).isEmpty = true →
      ((omget store decode truthy s keys).1).get? i = some none) := by
  refine ⟨omget_length store decode truthy keys s,
    omget_get? store decode truthy keys i s k hik, ?_⟩
  intro hie
  rw [omget_get? store decode truthy keys i s k hik]
  have hcs' := omget_cacheSound store decode truthy (keys.take i) s hcs
  have hcg : cacheGet (omget store decode truthy s (keys.take i)).2 k
      = none := hcs'.2 k hie
  rw [oget_absent store decode truthy _ k (fun _ => hcg) hie]

/-- Witness for `omget_pointwise`: over the demo store, fetching keys
`ship:0` (present) and `ghost` (absent) yields a two-element sequence
whose second slot is the absent result. -/
theorem omget_pointwise_witness :
    ((omget demoStore demoDecode demoTruthy (demoState true)
        ["ship:0", "ghost"]).1).length = (["ship:0", "ghost"]).length ∧
    ((omget demoStore demoDecode demoTruthy (demoState true)
        ["ship:0", "ghost"]).1).get? 1
      = some ((oget demoStore demoDecode demoTruthy
          ((omget demoStore demoDecode demoTruthy (demoState true)
            (["ship:0", "ghost"].take 1)).2) "ghost").1) ∧
    ((demoStore "ghost").isEmpty = true →
      ((omget demoStore demoDecode demoTruthy (demoState true)
          ["ship:0", "ghost"]).1).get? 1 = some none) :=
  omget_pointwise demoStore demoDecode demoTruthy (demoState true)
    ["ship:0", "ghost"] 1 "ghost"
    ⟨fun _ _ h => Option.noConfusion h, fun _ _ => rfl⟩ rfl

/-! ### Claim theorems for `RedisContainer` -/

/-- Claim C3: `container[key]` raises `KeyError` exactly when `key` is
not a member of the named set (membership being `sismember`); when `key`
is a member it delegates to the identity cache's `oget`, so a member
with no backing hash yields the absent result `.ok none`, which is
distinct from the `KeyError` outcome. -/
theorem container_getitem_spec {δ : Type} (store : Key → Hash)
    (decode : Hash → δ) (truthy : δ → Bool) (sets : String → List Key)
    (set_key : String) (s : ORState δ) (key key' : Key)
    (hmem : key ∈ sets set_key) (hie : (store key).isEmpty = true)
    (hcg : cacheGet s key = none) :
    ((container_getitem store decode truthy sets set_key s key').1
        = .error "KeyError" ↔ key' ∉ sets set_key) ∧
    (container_contains sets set_key key' = true ↔ key' ∈ sets set_key) ∧
    (key' ∈ sets set_key →
      (container_getitem store decode truthy sets set_key s key').1
        = .ok ((oget store decode truthy s key').1)) ∧
    (container_getitem store decode truthy sets set_key s key).1
      = .ok none ∧
    (container_getitem store decode truthy sets set_key s key).1
      ≠ .error "KeyError" := by
  have hdel : ∀ k'', k'' ∈ sets set_key →
      (container_getitem store decode truthy sets set_key s k'').1
        = .ok ((oget store decode truthy s k'').1) := by
    intro k'' hm
    simp [container_getitem, container_contains, hm]
  have habs : (container_getitem store decode truthy sets set_key s key).1
      = .ok none := by
    rw [hdel key hmem,
      oget_absent store decode truthy s key (fun _ => hcg) hie]
  refine ⟨?_, ?_, hdel key', habs, ?_⟩
  · by_cases hm : key' ∈ sets set_key
    · simp [container_getitem, container_contains, hm]
    · simp [container_getitem, container_contains, hm]
  · simp [container_contains]
  · rw [habs]
    simp

/-- Witness for `container_getitem_spec`: in the demo set of ships, the
non-member `foo` raises `KeyError` while the member `ghost`, which has
no backing hash, yields the absent result. -/
theorem container_getitem_spec_witness :
    ((container_getitem demoStore demoDecode demoTruthy demoSets "ships"
        (demoState true) "foo").1 = .error "KeyError"
      ↔ "foo" ∉ demoSets "ships") ∧
    (container_contains demoSets "ships" "foo" = true
      ↔ "foo" ∈ demoSets "ships") ∧
    ("foo" ∈ demoSets "ships" →
      (container_getitem demoStore demoDecode demoTruthy demoSets "ships"
          (demoState true) "foo").1
        = .ok ((oget demoStore demoDecode demoTruthy
            (demoState true) "foo").1)) ∧
    (container_getitem demoStore demoDecode demoTruthy demoSets "ships"
        (demoState true) "ghost").1 = .ok none ∧
    (container_getitem demoStore demoDecode demoTruthy demoSets "ships"
        (demoState true) "ghost").1 ≠ .error "KeyError" :=
  container_getitem_spec demoStore demoDecode demoTruthy demoSets "ships"
    (demoState true) "ghost" "foo" (by decide) rfl rfl

end Wall
